import Mathlib

/-!
Verification of the underwater image enhancement pipeline
(`underwater_preprocessing.py`, `main.py`).

Rasters are modelled as lists of rows of pixels; a device-color pixel is a
triple `(b, g, r)` of 8-bit intensities and a perceptual (LAB) pixel is a
triple `(l, a, b)`.  Numpy float arithmetic is modelled exactly over `ℚ`.
Numpy's `astype(np.uint8)` truncates toward zero; storing a float into a
`uint8` array additionally reduces the truncated integer modulo 256.
-/

/-- `np.clip(q, 0, 255)`. -/
def clip255 (q : ℚ) : ℚ := min (max q 0) 255

/-- Conversion of a clipped (hence nonnegative) float to `uint8` as performed
by `astype(np.uint8)`: truncation toward zero, which on nonnegative values is
the floor. -/
def toU8floor (q : ℚ) : ℕ := (⌊q⌋).toNat

/-- Truncation of a rational toward zero, the C semantics of a
`float -> integer` cast. -/
def ratTrunc (q : ℚ) : ℤ := if 0 ≤ q then ⌊q⌋ else -⌊-q⌋

/-- Storing an arbitrary float into a `uint8` numpy array slice: truncate
toward zero, then wrap modulo 256 (no saturation). -/
def wrapU8 (q : ℚ) : ℕ := ((ratTrunc q) % (256 : ℤ)).toNat

/-- Elementwise map over a 2D grid (a whole-array numpy operation). -/
def map2D (f : α → β) (p : List (List α)) : List (List β) := p.map (List.map f)

/-- Elementwise binary operation over two 2D grids. -/
def zipWith2D (f : α → β → γ) (p : List (List α)) (q : List (List β)) :
    List (List γ) := List.zipWith (List.zipWith f) p q

/-- Three-way zip, used to model `cv2.merge` of three planes. -/
def zipWith3 (f : α → β → γ → δ) : List α → List β → List γ → List δ
  | a :: as, b :: bs, c :: cs => f a b c :: zipWith3 f as bs cs
  | _, _, _ => []

/-- `cv2.merge([p, q, s])`: recombine three planes into a 3-channel raster. -/
def merge3 (p q s : List (List α)) : List (List (α × α × α)) :=
  zipWith3 (fun rp rq rs => zipWith3 (fun x y z => (x, y, z)) rp rq rs) p q s

/-- Total 2D lookup with an explicit default. -/
def getD2 (p : List (List α)) (i j : ℕ) (d : α) : α := (p.getD i []).getD j d

/-- A grid is rectangular with the given height and width. -/
def Rect (p : List (List α)) (h w : ℕ) : Prop :=
  p.length = h ∧ ∀ row ∈ p, row.length = w

lemma getD_mem_of_lt (l : List α) (i : ℕ) (h : i < l.length) (d : α) :
    l.getD i d ∈ l := by
  induction l generalizing i with
  | nil => simp at h
  | cons a as ih =>
    cases i with
    | zero => simp
    | succ n =>
      simp only [List.getD_cons_succ]
      exact List.mem_cons_of_mem a (ih n (by simpa using h))

lemma getD_map_lt (f : α → β) (l : List α) (i : ℕ) (h : i < l.length)
    (d : β) (e : α) : (l.map f).getD i d = f (l.getD i e) := by
  induction l generalizing i with
  | nil => simp at h
  | cons a as ih =>
    cases i with
    | zero => rfl
    | succ n =>
      simp only [List.map_cons, List.getD_cons_succ]
      exact ih n (by simpa using h)

lemma getD_zipWith_lt (f : α → β → γ) (l : List α) (m : List β) (i : ℕ)
    (h1 : i < l.length) (h2 : i < m.length) (d : γ) (da : α) (db : β) :
    (List.zipWith f l m).getD i d = f (l.getD i da) (m.getD i db) := by
  induction l generalizing m i with
  | nil => simp at h1
  | cons a as ih =>
    cases m with
    | nil => simp at h2
    | cons b bs =>
      cases i with
      | zero => rfl
      | succ n =>
        simp only [List.zipWith_cons_cons, List.getD_cons_succ]
        exact ih bs n (by simpa using h1) (by simpa using h2)

lemma zipWith3_nil_left (f : α → β → γ → δ) (bs : List β) (cs : List γ) :
    zipWith3 f [] bs cs = [] := rfl

lemma length_zipWith3 (f : α → β → γ → δ) (as : List α) (bs : List β)
    (cs : List γ) :
    (zipWith3 f as bs cs).length = min as.length (min bs.length cs.length) := by
  induction as generalizing bs cs with
  | nil => simp [zipWith3]
  | cons a as ih =>
    cases bs with
    | nil => simp [zipWith3]
    | cons b bs =>
      cases cs with
      | nil => simp [zipWith3]
      | cons c cs =>
        simp only [zipWith3, List.length_cons, ih]
        omega

lemma getD_zipWith3_lt (f : α → β → γ → δ) (as : List α) (bs : List β)
    (cs : List γ) (i : ℕ) (h1 : i < as.length) (h2 : i < bs.length)
    (h3 : i < cs.length) (d : δ) (da : α) (db : β) (dc : γ) :
    (zipWith3 f as bs cs).getD i d = f (as.getD i da) (bs.getD i db) (cs.getD i dc) := by
  induction as generalizing bs cs i with
  | nil => simp at h1
  | cons a as ih =>
    cases bs with
    | nil => simp at h2
    | cons b bs =>
      cases cs with
      | nil => simp at h3
      | cons c cs =>
        cases i with
        | zero => rfl
        | succ n =>
          simp only [zipWith3, List.getD_cons_succ]
          exact ih bs cs n (by simpa using h1) (by simpa using h2) (by simpa using h3)

lemma rect_map2D (f : α → β) (p : List (List α)) (h w : ℕ)
    (hp : Rect p h w) : Rect (map2D f p) h w := by
  constructor
  · simp [map2D, hp.1]
  · intro row hr
    rcases List.mem_map.1 hr with ⟨r0, hr0, rfl⟩
    simp [hp.2 r0 hr0]

lemma rect_row_len (p : List (List α)) (h w i : ℕ) (hp : Rect p h w)
    (hi : i < p.length) : (p.getD i []).length = w :=
  hp.2 _ (getD_mem_of_lt p i hi [])

lemma getD2_map2D (f : α → β) (p : List (List α)) (h w i j : ℕ)
    (hp : Rect p h w) (hi : i < h) (hj : j < w) (d : β) (e : α) :
    getD2 (map2D f p) i j d = f (getD2 p i j e) := by
  have hi' : i < p.length := hp.1 ▸ hi
  have hrow : (p.getD i []).length = w := rect_row_len p h w i hp hi'
  unfold getD2 map2D
  rw [getD_map_lt (List.map f) p i hi' [] []]
  exact getD_map_lt f (p.getD i []) j (hrow ▸ hj) d e

lemma getD2_zipWith2D (f : α → β → γ) (p : List (List α)) (q : List (List β))
    (h w i j : ℕ) (hp : Rect p h w) (hq : Rect q h w) (hi : i < h) (hj : j < w)
    (d : γ) (da : α) (db : β) :
    getD2 (zipWith2D f p q) i j d = f (getD2 p i j da) (getD2 q i j db) := by
  have hip : i < p.length := hp.1 ▸ hi
  have hiq : i < q.length := hq.1 ▸ hi
  unfold getD2 zipWith2D
  rw [getD_zipWith_lt (List.zipWith f) p q i hip hiq [] [] []]
  exact getD_zipWith_lt f _ _ j ((rect_row_len p h w i hp hip) ▸ hj)
    ((rect_row_len q h w i hq hiq) ▸ hj) d da db

lemma getD2_merge3 (p q s : List (List α)) (h w i j : ℕ)
    (hp : Rect p h w) (hq : Rect q h w) (hs : Rect s h w)
    (hi : i < h) (hj : j < w) (d : α) :
    getD2 (merge3 p q s) i j (d, d, d) =
      (getD2 p i j d, getD2 q i j d, getD2 s i j d) := by
  have hip : i < p.length := hp.1 ▸ hi
  have hiq : i < q.length := hq.1 ▸ hi
  have his : i < s.length := hs.1 ▸ hi
  unfold getD2 merge3
  rw [getD_zipWith3_lt _ p q s i hip hiq his [] [] [] []]
  exact getD_zipWith3_lt _ _ _ _ j ((rect_row_len p h w i hp hip) ▸ hj)
    ((rect_row_len q h w i hq hiq) ▸ hj) ((rect_row_len s h w i hs his) ▸ hj)
    (d, d, d) d d d

lemma rect_merge3 (p q s : List (List α)) (h w : ℕ)
    (hp : Rect p h w) (hq : Rect q h w) (hs : Rect s h w) :
    Rect (merge3 p q s) h w := by
  constructor
  · rw [merge3, length_zipWith3, hp.1, hq.1, hs.1]; omega
  · intro row hr
    have : ∀ (as : List (List α)) (bs : List (List α)) (cs : List (List α)),
        (∀ r ∈ as, r.length = w) → (∀ r ∈ bs, r.length = w) →
        (∀ r ∈ cs, r.length = w) →
        ∀ r0 ∈ zipWith3 (fun rp rq rs =>
          zipWith3 (fun x y z => (x, y, z)) rp rq rs) as bs cs,
        r0.length = w := by
      intro as
      induction as with
      | nil => intro bs cs _ _ _ r0 hr0; simp [zipWith3] at hr0
      | cons a as ih =>
        intro bs cs ha hb hc r0 hr0
        cases bs with
        | nil => simp [zipWith3] at hr0
        | cons b bs =>
          cases cs with
          | nil => simp [zipWith3] at hr0
          | cons c cs =>
            simp only [zipWith3, List.mem_cons] at hr0
            rcases hr0 with rfl | hr0
            · rw [length_zipWith3, ha a (by simp), hb b (by simp),
                hc c (by simp)]
              omega
            · exact ih bs cs (fun r hr => ha r (List.mem_cons_of_mem a hr))
                (fun r hr => hb r (List.mem_cons_of_mem b hr))
                (fun r hr => hc r (List.mem_cons_of_mem c hr)) r0 hr0
    exact this p q s hp.2 hq.2 hs.2 row hr

/-! ### Red channel compensation (`preprocess_underwater_image`, step 1)

Source lines 29-51: `b, g, r = cv2.split(image)`;
`r_f = r / 255.0`; `g_f = g / 255.0`;
`compensated_r = r_f + (g_f - r_f) * (1.0 - r_f) * g_f`;
`r_new = np.clip(compensated_r * 255, 0, 255).astype(np.uint8)`;
`image_compensated = cv2.merge([b, g, r_new])`. -/

/-- `cv2.split`: the blue, green and red planes of a raster. -/
def split3 (img : List (List (α × α × α))) :
    List (List α) × List (List α) × List (List α) :=
  (map2D (fun p => p.1) img, map2D (fun p => p.2.1) img,
    map2D (fun p => p.2.2) img)

/-- The per-pixel Ancuti compensation formula in the normalized domain,
exactly as computed by lines 40-45 of the source. -/
def compensatedQ (g r : ℕ) : ℚ :=
  (r : ℚ) / 255 + ((g : ℚ) / 255 - (r : ℚ) / 255) * (1 - (r : ℚ) / 255) * ((g : ℚ) / 255)

/-- The per-pixel new red value: rescale, clip to `[0,255]`, convert to 8 bit. -/
def rNewVal (g r : ℕ) : ℕ := toU8floor (clip255 (compensatedQ g r * 255))

/-- The compensated red plane (`compensated_r` in the source), built with
whole-plane operations as in the source. -/
def compensated_r (img : List (List (ℕ × ℕ × ℕ))) : List (List ℚ) :=
  zipWith2D (fun rf gf => rf + (gf - rf) * (1 - rf) * gf)
    (map2D (fun x : ℕ => (x : ℚ) / 255) (split3 img).2.2)
    (map2D (fun x : ℕ => (x : ℚ) / 255) (split3 img).2.1)

/-- `r_new = np.clip(compensated_r * 255, 0, 255).astype(np.uint8)`. -/
def r_new (img : List (List (ℕ × ℕ × ℕ))) : List (List ℕ) :=
  map2D (fun q => toU8floor (clip255 (q * 255))) (compensated_r img)

/-- `image_compensated = cv2.merge([b, g, r_new])`. -/
def image_compensated (img : List (List (ℕ × ℕ × ℕ))) :
    List (List (ℕ × ℕ × ℕ)) :=
  merge3 (split3 img).1 (split3 img).2.1 (r_new img)

lemma rect_split3_b (img : List (List (ℕ × ℕ × ℕ))) (h w : ℕ)
    (him : Rect img h w) : Rect (split3 img).1 h w := rect_map2D _ _ _ _ him

lemma rect_split3_g (img : List (List (ℕ × ℕ × ℕ))) (h w : ℕ)
    (him : Rect img h w) : Rect (split3 img).2.1 h w := rect_map2D _ _ _ _ him

lemma rect_split3_r (img : List (List (ℕ × ℕ × ℕ))) (h w : ℕ)
    (him : Rect img h w) : Rect (split3 img).2.2 h w := rect_map2D _ _ _ _ him

lemma rect_zipWith2D (f : α → β → γ) (p : List (List α)) (q : List (List β))
    (h w : ℕ) (hp : Rect p h w) (hq : Rect q h w) :
    Rect (zipWith2D f p q) h w := by
  induction p generalizing q h with
  | nil =>
    have : h = 0 := by simpa using hp.1.symm
    subst this
    exact ⟨by simp [zipWith2D], by intro row hr; simp [zipWith2D] at hr⟩
  | cons a as ih =>
    cases q with
    | nil =>
      exfalso
      have h1 := hp.1
      have h2 := hq.1
      simp at h1 h2
      omega
    | cons b bs =>
      have hlen : as.length = bs.length := by
        have h1 := hp.1; have h2 := hq.1; simp at h1 h2; omega
      have htail : Rect (zipWith2D f as bs) as.length w :=
        ih bs as.length ⟨rfl, fun r hr => hp.2 r (List.mem_cons_of_mem a hr)⟩
          ⟨hlen.symm, fun r hr => hq.2 r (List.mem_cons_of_mem b hr)⟩
      constructor
      · have h1 := hp.1
        simp only [zipWith2D, List.zipWith_cons_cons, List.length_cons]
        have := htail.1
        simp only [zipWith2D] at this
        simp only [this]
        simpa using h1
      · intro row hr
        simp only [zipWith2D, List.zipWith_cons_cons, List.mem_cons] at hr
        rcases hr with rfl | hr
        · rw [List.length_zipWith, hp.2 a (by simp), hq.2 b (by simp)]
          omega
        · exact htail.2 row hr

lemma rect_compensated_r (img : List (List (ℕ × ℕ × ℕ))) (h w : ℕ)
    (him : Rect img h w) : Rect (compensated_r img) h w :=
  rect_zipWith2D _ _ _ h w (rect_map2D _ _ _ _ (rect_split3_r img h w him))
    (rect_map2D _ _ _ _ (rect_split3_g img h w him))

lemma rect_r_new (img : List (List (ℕ × ℕ × ℕ))) (h w : ℕ)
    (him : Rect img h w) : Rect (r_new img) h w :=
  rect_map2D _ _ _ _ (rect_compensated_r img h w him)

lemma rect_image_compensated (img : List (List (ℕ × ℕ × ℕ))) (h w : ℕ)
    (him : Rect img h w) : Rect (image_compensated img) h w :=
  rect_merge3 _ _ _ h w (rect_split3_b img h w him) (rect_split3_g img h w him)
    (rect_r_new img h w him)

lemma pixel_image_compensated (img : List (List (ℕ × ℕ × ℕ))) (h w i j : ℕ)
    (him : Rect img h w) (hi : i < h) (hj : j < w) :
    getD2 (image_compensated img) i j (0, 0, 0) =
      ((getD2 img i j (0, 0, 0)).1, (getD2 img i j (0, 0, 0)).2.1,
        rNewVal (getD2 img i j (0, 0, 0)).2.1 (getD2 img i j (0, 0, 0)).2.2) := by
  have e1 : getD2 (split3 img).1 i j 0 = (getD2 img i j (0, 0, 0)).1 :=
    getD2_map2D _ img h w i j him hi hj 0 (0, 0, 0)
  have e2 : getD2 (split3 img).2.1 i j 0 = (getD2 img i j (0, 0, 0)).2.1 :=
    getD2_map2D _ img h w i j him hi hj 0 (0, 0, 0)
  have e3 : getD2 (r_new img) i j 0 =
      toU8floor (clip255 (getD2 (compensated_r img) i j 0 * 255)) :=
    getD2_map2D _ _ h w i j (rect_compensated_r img h w him) hi hj 0 0
  have e5 : getD2 (map2D (fun x : ℕ => (x : ℚ) / 255) (split3 img).2.2) i j 0 =
      ((getD2 (split3 img).2.2 i j 0 : ℕ) : ℚ) / 255 :=
    getD2_map2D _ _ h w i j (rect_split3_r img h w him) hi hj 0 0
  have e6 : getD2 (map2D (fun x : ℕ => (x : ℚ) / 255) (split3 img).2.1) i j 0 =
      ((getD2 (split3 img).2.1 i j 0 : ℕ) : ℚ) / 255 :=
    getD2_map2D _ _ h w i j (rect_split3_g img h w him) hi hj 0 0
  have e7 : getD2 (split3 img).2.2 i j 0 = (getD2 img i j (0, 0, 0)).2.2 :=
    getD2_map2D _ img h w i j him hi hj 0 (0, 0, 0)
  have e4 : getD2 (compensated_r img) i j 0 =
      compensatedQ (getD2 img i j (0, 0, 0)).2.1 (getD2 img i j (0, 0, 0)).2.2 := by
    unfold compensated_r
    rw [getD2_zipWith2D _ _ _ h w i j
      (rect_map2D _ _ _ _ (rect_split3_r img h w him))
      (rect_map2D _ _ _ _ (rect_split3_g img h w him)) hi hj 0 0 0,
      e5, e6, e7, e2]
    rfl
  show getD2 (merge3 (split3 img).1 (split3 img).2.1 (r_new img)) i j (0, 0, 0) = _
  rw [getD2_merge3 _ _ _ h w i j (rect_split3_b img h w him)
    (rect_split3_g img h w him) (rect_r_new img h w him) hi hj 0,
    e1, e2, e3, e4]
  rfl

/-- C1: for every raster and every in-range pixel, the recombined raster after
red-channel compensation keeps the blue and green channels unchanged and its
red channel equals `compensated * 255` clipped to `[0,255]` and converted to an
8-bit value, where `compensated = r + (g - r) * (1 - r) * g` over the
normalized intensities `r = R/255`, `g = G/255`. -/
theorem red_compensation_pixel_formula_c1 (img : List (List (ℕ × ℕ × ℕ)))
    (h w i j : ℕ) (him : Rect img h w) (hi : i < h) (hj : j < w) :
    getD2 (image_compensated img) i j (0, 0, 0) =
      ((getD2 img i j (0, 0, 0)).1, (getD2 img i j (0, 0, 0)).2.1,
        toU8floor (clip255 (compensatedQ (getD2 img i j (0, 0, 0)).2.1
          (getD2 img i j (0, 0, 0)).2.2 * 255))) :=
  pixel_image_compensated img h w i j him hi hj

/-- Witness for C1 at the concrete raster `[[(10, 200, 30)]]`. -/
theorem red_compensation_pixel_formula_c1_witness :
    Rect [[((10 : ℕ), (200 : ℕ), (30 : ℕ))]] 1 1 ∧
    getD2 (image_compensated [[(10, 200, 30)]]) 0 0 (0, 0, 0) =
      ((getD2 [[((10 : ℕ), (200 : ℕ), (30 : ℕ))]] 0 0 (0, 0, 0)).1,
        (getD2 [[((10 : ℕ), (200 : ℕ), (30 : ℕ))]] 0 0 (0, 0, 0)).2.1,
        toU8floor (clip255 (compensatedQ
          (getD2 [[((10 : ℕ), (200 : ℕ), (30 : ℕ))]] 0 0 (0, 0, 0)).2.1
          (getD2 [[((10 : ℕ), (200 : ℕ), (30 : ℕ))]] 0 0 (0, 0, 0)).2.2 * 255))) :=
  ⟨⟨rfl, by intro row hr; simp at hr; simp [hr]⟩,
    red_compensation_pixel_formula_c1 [[(10, 200, 30)]] 1 1 0 0
      ⟨rfl, by intro row hr; simp at hr; simp [hr]⟩ (by decide) (by decide)⟩

/-! ### Red compensation monotonicity (claim C5) -/

lemma comp_formula_bounds (x y : ℚ) (hx0 : 0 ≤ x) (hx1 : x ≤ 1)
    (hy0 : 0 ≤ y) (hy1 : y ≤ 1) :
    (x ≤ y → x ≤ x + (y - x) * (1 - x) * y ∧ x + (y - x) * (1 - x) * y ≤ 1) ∧
    (y ≤ x → x + (y - x) * (1 - x) * y ≤ x) := by
  constructor
  · intro hxy
    constructor
    · have h1 : 0 ≤ (y - x) * (1 - x) * y :=
        mul_nonneg (mul_nonneg (by linarith) (by linarith)) hy0
      linarith
    · nlinarith [mul_nonneg (sub_nonneg.mpr hx1) hy0,
        mul_nonneg hy0 hy0, mul_nonneg (mul_nonneg hx0 hy0) hy0,
        mul_nonneg (mul_nonneg hx0 hx0) hy0]
  · intro hyx
    have h1 : (y - x) * (1 - x) * y ≤ 0 :=
      mul_nonpos_of_nonpos_of_nonneg
        (mul_nonpos_of_nonpos_of_nonneg (by linarith) (by linarith)) hy0
    linarith

/-- C5: per pixel of the compensation input planes with 8-bit intensities, if
green `g` is at least red `r` then the compensated 8-bit red value is at least
`r`, and if `g < r` it is at most `r` — including after the clip to `[0,255]`
and the conversion to `uint8`. -/
theorem red_compensation_monotone_c5 (g r : ℕ) (hg : g ≤ 255) (hr : r ≤ 255) :
    (r ≤ g → r ≤ rNewVal g r) ∧ (g < r → rNewVal g r ≤ r) := by
  have hx0 : 0 ≤ (r : ℚ) / 255 := by positivity
  have hx1 : (r : ℚ) / 255 ≤ 1 := by
    rw [div_le_one (by norm_num)]; exact_mod_cast hr
  have hy0 : 0 ≤ (g : ℚ) / 255 := by positivity
  have hy1 : (g : ℚ) / 255 ≤ 1 := by
    rw [div_le_one (by norm_num)]; exact_mod_cast hg
  have hb := comp_formula_bounds ((r : ℚ) / 255) ((g : ℚ) / 255) hx0 hx1 hy0 hy1
  constructor
  · intro hrg
    have hxy : (r : ℚ) / 255 ≤ (g : ℚ) / 255 := by
      apply div_le_div_of_nonneg_right ?h (by norm_num)
      exact_mod_cast hrg
    obtain ⟨hlo, hhi⟩ := hb.1 hxy
    have hlo' : (r : ℚ) ≤ compensatedQ g r * 255 := by
      unfold compensatedQ
      nlinarith
    have hhi' : compensatedQ g r * 255 ≤ 255 := by
      unfold compensatedQ
      nlinarith
    have hclip : clip255 (compensatedQ g r * 255) = compensatedQ g r * 255 := by
      unfold clip255
      rw [max_eq_left (le_trans (by positivity : (0 : ℚ) ≤ (r : ℚ)) hlo')]
      exact min_eq_left hhi'
    have hfloor : (r : ℤ) ≤ ⌊compensatedQ g r * 255⌋ :=
      Int.le_floor.mpr (by push_cast; linarith)
    unfold rNewVal toU8floor
    rw [hclip]
    omega
  · intro hgr
    have hxy : (g : ℚ) / 255 ≤ (r : ℚ) / 255 := by
      apply div_le_div_of_nonneg_right ?h (by norm_num)
      exact_mod_cast hgr.le
    have hle := hb.2 hxy
    have hle' : compensatedQ g r * 255 ≤ (r : ℚ) := by
      unfold compensatedQ
      nlinarith
    have hclip : clip255 (compensatedQ g r * 255) ≤ (r : ℚ) :=
      le_trans (min_le_left _ _) (max_le hle' (by positivity))
    have hfloor : ⌊clip255 (compensatedQ g r * 255)⌋ ≤ (r : ℤ) := by
      have := Int.floor_le_floor hclip
      rwa [Int.floor_natCast] at this
    unfold rNewVal toU8floor
    omega

/-- Witness for C5 at the concrete intensities `g = 50`, `r = 10`. -/
theorem red_compensation_monotone_c5_witness :
    (50 : ℕ) ≤ 255 ∧ (10 : ℕ) ≤ 255 ∧ (10 ≤ rNewVal 50 10) :=
  ⟨by decide, by decide,
    (red_compensation_monotone_c5 50 10 (by decide) (by decide)).1 (by decide)⟩

/-! ### Chromatic cast corrector (`preprocess_underwater_image`, step 2)

Source lines 55-62.  `result` is a `uint8` LAB raster; a pixel is `(l, a, b)`.
`avg_a = np.average(result[:, :, 1])`, `avg_b = np.average(result[:, :, 2])`;
then the chroma channels are updated in place:
`result[:, :, 1] = result[:, :, 1] - ((avg_a - 128) * (result[:, :, 0] / 255.0) * 1.2)`
and likewise for channel 2.  The right-hand sides are float arrays; storing
them back into the `uint8` array truncates toward zero and wraps modulo 256 —
the source applies no `np.clip` here. -/

/-- The L plane of a perceptual raster. -/
def lPlaneOf (img : List (List (ℕ × ℕ × ℕ))) : List (List ℕ) :=
  map2D (fun p => p.1) img

/-- The A (chroma) plane of a perceptual raster. -/
def aPlaneOf (img : List (List (ℕ × ℕ × ℕ))) : List (List ℕ) :=
  map2D (fun p => p.2.1) img

/-- The B (chroma) plane of a perceptual raster. -/
def bPlaneOf (img : List (List (ℕ × ℕ × ℕ))) : List (List ℕ) :=
  map2D (fun p => p.2.2) img

/-- `np.average` / `np.mean` of a rational-valued plane: total over count. -/
def planeMeanQ (p : List (List ℚ)) : ℚ :=
  (p.map List.sum).sum / (((p.map List.length).sum : ℕ) : ℚ)

/-- `np.average` / `np.mean` of an 8-bit plane. -/
def planeMean (p : List (List ℕ)) : ℚ :=
  planeMeanQ (map2D (fun x : ℕ => (x : ℚ)) p)

/-- The chromatic cast corrector, translated from source lines 56-62: the two
plane means are computed first, then every pixel's chroma values are shifted
by the luminance-weighted correction and stored back into the `uint8` raster
(truncation toward zero, wrap modulo 256 — the source has no clip here). -/
def castCorrect (img : List (List (ℕ × ℕ × ℕ))) : List (List (ℕ × ℕ × ℕ)) :=
  map2D (fun p => (p.1,
    wrapU8 ((p.2.1 : ℚ) - (planeMean (aPlaneOf img) - 128) * ((p.1 : ℚ) / 255) * 1.2),
    wrapU8 ((p.2.2 : ℚ) - (planeMean (bPlaneOf img) - 128) * ((p.1 : ℚ) / 255) * 1.2))) img

lemma wrapU8_natCast (n : ℕ) (h : n ≤ 255) : wrapU8 ((n : ℕ) : ℚ) = n := by
  unfold wrapU8 ratTrunc
  rw [if_pos (by positivity), Int.floor_natCast]
  omega

/-- A 1x4 perceptual raster on which the cast corrector underflows: bright
pixels, A plane `[0, 255, 255, 255]` (mean `191.25`), neutral B plane. -/
def castBugInput : List (List (ℕ × ℕ × ℕ)) :=
  [[(255, 0, 128), (255, 255, 128), (255, 255, 128), (255, 255, 128)]]

/-- C2 (code bug): on `castBugInput` the correction shift is `75.9`; at the
first pixel the updated chroma `0 - 75.9` is stored as `181` (truncate toward
zero, wrap modulo 256), whereas clamping to `[0,255]` — what the claim and the
source's own comment promise — would store `0`. -/
theorem cast_corrector_wraps_not_clamps_c2 :
    castCorrect castBugInput =
      [[(255, 181, 128), (255, 179, 128), (255, 179, 128), (255, 179, 128)]] ∧
    toU8floor (clip255 ((0 : ℚ) -
      (planeMean (aPlaneOf castBugInput) - 128) * ((255 : ℚ) / 255) * 1.2)) = 0 := by
  have hA : planeMean (aPlaneOf castBugInput) = 765 / 4 := by
    norm_num [planeMean, planeMeanQ, map2D, aPlaneOf, castBugInput]
  have hB : planeMean (bPlaneOf castBugInput) = 128 := by
    norm_num [planeMean, planeMeanQ, map2D, bPlaneOf, castBugInput]
  constructor
  · unfold castCorrect
    rw [hA, hB]
    simp only [castBugInput, map2D, List.map_cons, List.map_nil]
    have e0 : ((0 : ℕ) : ℚ) - ((765 / 4 : ℚ) - 128) * (((255 : ℕ) : ℚ) / 255) * 1.2 =
        -759 / 10 := by norm_num
    have e255 : ((255 : ℕ) : ℚ) - ((765 / 4 : ℚ) - 128) * (((255 : ℕ) : ℚ) / 255) * 1.2 =
        1791 / 10 := by norm_num
    have eB : ((128 : ℕ) : ℚ) - ((128 : ℚ) - 128) * (((255 : ℕ) : ℚ) / 255) * 1.2 =
        128 := by norm_num
    rw [e0, e255, eB]
    have w1 : wrapU8 (-759 / 10) = 181 := by
      unfold wrapU8 ratTrunc
      rw [if_neg (by norm_num)]
      have h75 : ⌊(-(-759 / 10) : ℚ)⌋ = 75 := by norm_num [Int.floor_eq_iff]
      rw [h75]
      decide
    have w2 : wrapU8 (1791 / 10) = 179 := by
      unfold wrapU8 ratTrunc
      rw [if_pos (by norm_num)]
      have h179 : ⌊(1791 / 10 : ℚ)⌋ = 179 := by norm_num [Int.floor_eq_iff]
      rw [h179]
      decide
    have w3 : wrapU8 128 = 128 := by
      unfold wrapU8 ratTrunc
      rw [if_pos (by norm_num)]
      have h128 : ⌊(128 : ℚ)⌋ = 128 := by norm_num [Int.floor_eq_iff]
      rw [h128]
      decide
    rw [w1, w2, w3]
  · rw [hA]
    have ec : clip255 ((0 : ℚ) - ((765 / 4 : ℚ) - 128) * ((255 : ℚ) / 255) * 1.2) = 0 := by
      unfold clip255
      norm_num
    rw [ec]
    unfold toU8floor
    have h0 : ⌊(0 : ℚ)⌋ = 0 := by norm_num [Int.floor_eq_iff]
    rw [h0]
    rfl

/-- C6: if the perceptual raster's A and B plane means are both exactly 128
and its channel values are 8-bit, the chromatic cast corrector is the
identity: both chroma planes (and the L plane) are returned unchanged. -/
theorem cast_corrector_neutral_identity_c6 (img : List (List (ℕ × ℕ × ℕ)))
    (hA : planeMean (aPlaneOf img) = 128) (hB : planeMean (bPlaneOf img) = 128)
    (hbound : ∀ row ∈ img, ∀ p ∈ row, p.2.1 ≤ 255 ∧ p.2.2 ≤ 255) :
    castCorrect img = img := by
  unfold castCorrect
  rw [hA, hB]
  unfold map2D
  have hrow : ∀ row ∈ img, List.map (fun p : ℕ × ℕ × ℕ => (p.1,
      wrapU8 ((p.2.1 : ℚ) - ((128 : ℚ) - 128) * ((p.1 : ℚ) / 255) * 1.2),
      wrapU8 ((p.2.2 : ℚ) - ((128 : ℚ) - 128) * ((p.1 : ℚ) / 255) * 1.2))) row = row := by
    intro row hr
    have : List.map (fun p : ℕ × ℕ × ℕ => (p.1,
        wrapU8 ((p.2.1 : ℚ) - ((128 : ℚ) - 128) * ((p.1 : ℚ) / 255) * 1.2),
        wrapU8 ((p.2.2 : ℚ) - ((128 : ℚ) - 128) * ((p.1 : ℚ) / 255) * 1.2))) row =
        List.map id row := by
      apply List.map_congr_left
      intro p hp
      obtain ⟨h1, h2⟩ := hbound row hr p hp
      obtain ⟨pl, pa, pb⟩ := p
      simp only at h1 h2
      have e1 : ((pa : ℕ) : ℚ) - ((128 : ℚ) - 128) * ((pl : ℚ) / 255) * 1.2 =
          ((pa : ℕ) : ℚ) := by ring
      have e2 : ((pb : ℕ) : ℚ) - ((128 : ℚ) - 128) * ((pl : ℚ) / 255) * 1.2 =
          ((pb : ℕ) : ℚ) := by ring
      simp only [e1, e2, wrapU8_natCast _ h1, wrapU8_natCast _ h2, id]
    rw [this, List.map_id]
  have : List.map (List.map (fun p : ℕ × ℕ × ℕ => (p.1,
      wrapU8 ((p.2.1 : ℚ) - ((128 : ℚ) - 128) * ((p.1 : ℚ) / 255) * 1.2),
      wrapU8 ((p.2.2 : ℚ) - ((128 : ℚ) - 128) * ((p.1 : ℚ) / 255) * 1.2)))) img =
      List.map id img := List.map_congr_left hrow
  rw [this, List.map_id]

/-- Witness for C6: a 1x2 raster with both chroma planes at the neutral 128. -/
theorem cast_corrector_neutral_identity_c6_witness :
    planeMean (aPlaneOf [[(10, 128, 128), (250, 128, 128)]]) = 128 ∧
    planeMean (bPlaneOf [[(10, 128, 128), (250, 128, 128)]]) = 128 ∧
    castCorrect [[(10, 128, 128), (250, 128, 128)]] =
      [[(10, 128, 128), (250, 128, 128)]] :=
  ⟨by norm_num [planeMean, planeMeanQ, map2D, aPlaneOf],
    by norm_num [planeMean, planeMeanQ, map2D, bPlaneOf],
    cast_corrector_neutral_identity_c6 [[(10, 128, 128), (250, 128, 128)]]
      (by norm_num [planeMean, planeMeanQ, map2D, aPlaneOf])
      (by norm_num [planeMean, planeMeanQ, map2D, bPlaneOf])
      (by intro row hr p hp; simp at hr; subst hr; simp at hp
          rcases hp with rfl | rfl <;> exact ⟨by decide, by decide⟩)⟩

/-! ### Gray World white balance (`apply_gray_world_white_balance`)

Source lines 7-24.  The three channel means are taken, `avg_gray` is their
mean, and each channel is scaled by `min(avg_gray / avg_channel, 4.0)` — the
three divisions are performed unconditionally, with no test for a zero-mean
channel. -/

/-- `avg_b = np.mean(image[:, :, 0])`. -/
def gw_avg_b (img : List (List (ℕ × ℕ × ℕ))) : ℚ := planeMean (split3 img).1

/-- `avg_g = np.mean(image[:, :, 1])`. -/
def gw_avg_g (img : List (List (ℕ × ℕ × ℕ))) : ℚ := planeMean (split3 img).2.1

/-- `avg_r = np.mean(image[:, :, 2])`. -/
def gw_avg_r (img : List (List (ℕ × ℕ × ℕ))) : ℚ := planeMean (split3 img).2.2

/-- `avg_gray = (avg_b + avg_g + avg_r) / 3`. -/
def gw_avg_gray (img : List (List (ℕ × ℕ × ℕ))) : ℚ :=
  (gw_avg_b img + gw_avg_g img + gw_avg_r img) / 3

/-- `scale_b = min(avg_gray / avg_b, 4.0)` — the division has no guard. -/
def gw_scale_b (img : List (List (ℕ × ℕ × ℕ))) : ℚ :=
  min (gw_avg_gray img / gw_avg_b img) 4

/-- `scale_g = min(avg_gray / avg_g, 4.0)` — the division has no guard. -/
def gw_scale_g (img : List (List (ℕ × ℕ × ℕ))) : ℚ :=
  min (gw_avg_gray img / gw_avg_g img) 4

/-- `scale_r = min(avg_gray / avg_r, 4.0)` — the division has no guard. -/
def gw_scale_r (img : List (List (ℕ × ℕ × ℕ))) : ℚ :=
  min (gw_avg_gray img / gw_avg_r img) 4

/-- Scale each channel, clip to `[0,255]`, convert back to `uint8`. -/
def apply_gray_world_white_balance (img : List (List (ℕ × ℕ × ℕ))) :
    List (List (ℕ × ℕ × ℕ)) :=
  map2D (fun p =>
    (toU8floor (clip255 ((p.1 : ℚ) * gw_scale_b img)),
     toU8floor (clip255 ((p.2.1 : ℚ) * gw_scale_g img)),
     toU8floor (clip255 ((p.2.2 : ℚ) * gw_scale_r img)))) img

/-- A nonempty all-black 2x2 image: every channel mean is zero. -/
def blackImg : List (List (ℕ × ℕ × ℕ)) :=
  [[(0, 0, 0), (0, 0, 0)], [(0, 0, 0), (0, 0, 0)]]

/-- C8: on the (nonempty, decodable) all-black image every channel mean is
zero, so each of the three per-channel scale computations of the gray-world
routine — `avg_gray / avg_b`, `avg_gray / avg_g`, `avg_gray / avg_r` — is
literally a division by zero, performed with no guard: the scale definitions
apply the division to the zero divisor unconditionally. -/
theorem gray_world_zero_mean_division_c8 :
    gw_avg_b blackImg = 0 ∧ gw_avg_g blackImg = 0 ∧ gw_avg_r blackImg = 0 ∧
    gw_scale_b blackImg = min (gw_avg_gray blackImg / 0) 4 ∧
    gw_scale_g blackImg = min (gw_avg_gray blackImg / 0) 4 ∧
    gw_scale_r blackImg = min (gw_avg_gray blackImg / 0) 4 := by
  have hb : gw_avg_b blackImg = 0 := by
    norm_num [gw_avg_b, planeMean, planeMeanQ, map2D, split3, blackImg]
  have hg : gw_avg_g blackImg = 0 := by
    norm_num [gw_avg_g, planeMean, planeMeanQ, map2D, split3, blackImg]
  have hr : gw_avg_r blackImg = 0 := by
    norm_num [gw_avg_r, planeMean, planeMeanQ, map2D, split3, blackImg]
  refine ⟨hb, hg, hr, ?_, ?_, ?_⟩
  · unfold gw_scale_b; rw [hb]
  · unfold gw_scale_g; rw [hg]
  · unfold gw_scale_r; rw [hr]

/-! ### Image statistics (`get_image_statistics`)

Source lines 90-98: `gray = cv2.cvtColor(image, cv2.COLOR_BGR2GRAY)` and the
reported contrast figure is `np.std(gray) / np.mean(gray)`, computed with no
guard on the mean. -/

/-- Modelled from the spec: the "grayscale derivative" produced by the
external `cv2.cvtColor(image, cv2.COLOR_BGR2GRAY)` collaborator, using the
standard luma weights on the `(b, g, r)` channels. -/
def grayQ (p : ℕ × ℕ × ℕ) : ℚ :=
  (299 * (p.2.2 : ℚ) + 587 * (p.2.1 : ℚ) + 114 * (p.1 : ℚ)) / 1000

/-- The grayscale plane of a raster. -/
def grayPlaneQ (img : List (List (ℕ × ℕ × ℕ))) : List (List ℚ) :=
  map2D grayQ img

/-- `np.mean(gray)` — the denominator of the reported contrast figure
`np.std(gray) / np.mean(gray)`. -/
def meanGray (img : List (List (ℕ × ℕ × ℕ))) : ℚ :=
  planeMeanQ (grayPlaneQ img)

/-- `np.var(gray)` (the square of `np.std(gray)`), the numerator data of the
contrast figure. -/
def varGray (img : List (List (ℕ × ℕ × ℕ))) : ℚ :=
  planeMeanQ (map2D (fun x => (x - meanGray img) ^ 2) (grayPlaneQ img))

/-- C10: on the all-black image the grayscale plane is identically zero, so
`np.mean(gray)` — the denominator of the contrast figure
`np.std(gray) / np.mean(gray)` in `get_image_statistics` — is zero, and the
unguarded contrast computation divides by zero (`np.std(gray)` is also zero
there, making the figure `0/0`). -/
theorem statistics_contrast_zero_mean_c10 :
    meanGray blackImg = 0 ∧ varGray blackImg = 0 := by
  have hm : meanGray blackImg = 0 := by
    norm_num [meanGray, planeMeanQ, grayPlaneQ, grayQ, map2D, blackImg]
  refine ⟨hm, ?_⟩
  unfold varGray
  rw [hm]
  norm_num [planeMeanQ, grayPlaneQ, grayQ, map2D, blackImg]

/-! ### Adaptive Contrast Enhancer (CLAHE, `preprocess_underwater_image` step 3)

Modelled from the spec: the source defers this step to the external library
primitive `cv2.createCLAHE(clipLimit=0.5, tileGridSize=(8,8)).apply(l)`, so
the algorithm is reconstructed from the specification: partition the
luminance plane into an 8x8 tile grid (edge tiles may be irregular), build a
256-bin histogram per tile, clip each bin at `0.5 * tile_pixels / 256`,
redistribute the clipped excess uniformly over all bins in a single pass,
map intensities through the tile's cumulative distribution scaled to
`[0,255]`, and bilinearly blend the mappings of the four nearest tile
centers at every pixel. -/

/-- The tile index (0..7) owning scanline `i` of a plane of extent `n`. -/
def tileOf (n i : ℕ) : ℕ := min (8 * i / n) 7

/-- The scanline indices belonging to tile `t` along an extent of `n`. -/
def tileIdxs (n t : ℕ) : List ℕ := (List.range n).filter (fun i => tileOf n i = t)

/-- All pixel values of tile `(ty, tx)` of the plane. -/
def tileVals (p : List (List ℕ)) (ty tx : ℕ) : List ℕ :=
  (tileIdxs p.length ty).flatMap (fun i =>
    (tileIdxs (p.headD []).length tx).map (fun j => getD2 p i j 0))

/-- The number of pixels in tile `(ty, tx)`. -/
def tileCount (p : List (List ℕ)) (ty tx : ℕ) : ℕ := (tileVals p ty tx).length

/-- The 256-bin histogram of tile `(ty, tx)`: the count of bin `b`. -/
def tileHist (p : List (List ℕ)) (ty tx b : ℕ) : ℕ := (tileVals p ty tx).count b

/-- The clip limit: `clipLimit * tile_pixels / bins` with `clipLimit = 0.5`
and 256 bins. -/
def clipLimQ (n : ℕ) : ℚ := (1 / 2) * n / 256

/-- A histogram bin after clipping at the clip limit. -/
def clippedBin (p : List (List ℕ)) (ty tx b : ℕ) : ℚ :=
  min ((tileHist p ty tx b : ℕ) : ℚ) (clipLimQ (tileCount p ty tx))

/-- The total clipped excess of the tile's histogram. -/
def excessQ (p : List (List ℕ)) (ty tx : ℕ) : ℚ :=
  ((List.range 256).map (fun b =>
    ((tileHist p ty tx b : ℕ) : ℚ) - clippedBin p ty tx b)).sum

/-- A histogram bin after the single uniform redistribution pass. -/
def redistBin (p : List (List ℕ)) (ty tx b : ℕ) : ℚ :=
  clippedBin p ty tx b + excessQ p ty tx / 256

/-- The cumulative distribution of the clipped-and-redistributed histogram. -/
def tileCdf (p : List (List ℕ)) (ty tx v : ℕ) : ℚ :=
  ((List.range (v + 1)).map (fun b => redistBin p ty tx b)).sum

/-- The tile's equalization mapping, scaled to `[0,255]`. -/
def tileMap (p : List (List ℕ)) (ty tx v : ℕ) : ℚ :=
  tileCdf p ty tx v / ((tileCount p ty tx : ℕ) : ℚ) * 255

/-- The lower of the two tile centers bracketing pixel `i` (clamped to the
grid): the integer part of `(i + 1/2) * 8 / n - 1/2`. -/
def lowTileIdx (n i : ℕ) : ℕ :=
  if 16 * i + 8 < n then 0 else min ((16 * i + 8 - n) / (2 * n)) 7

/-- The upper bracketing tile (clamped to the grid). -/
def hiTileIdx (n i : ℕ) : ℕ := min (lowTileIdx n i + 1) 7

/-- The bilinear weight of pixel `i` toward the upper bracketing tile. -/
def fracWeight (n i : ℕ) : ℚ :=
  if 16 * i + 8 < n then 0
  else ((16 * i + 8 - n : ℕ) : ℚ) / (2 * n) - ((lowTileIdx n i : ℕ) : ℚ)

/-- The blended output intensity at pixel `(i, j)`: the four bracketing
tiles' mappings applied to the pixel's value, bilinearly weighted. -/
def claheAt (p : List (List ℕ)) (i j : ℕ) : ℚ :=
  (1 - fracWeight p.length i) * (1 - fracWeight (p.headD []).length j) *
      tileMap p (lowTileIdx p.length i) (lowTileIdx (p.headD []).length j) (getD2 p i j 0) +
    (1 - fracWeight p.length i) * fracWeight (p.headD []).length j *
      tileMap p (lowTileIdx p.length i) (hiTileIdx (p.headD []).length j) (getD2 p i j 0) +
    fracWeight p.length i * (1 - fracWeight (p.headD []).length j) *
      tileMap p (hiTileIdx p.length i) (lowTileIdx (p.headD []).length j) (getD2 p i j 0) +
    fracWeight p.length i * fracWeight (p.headD []).length j *
      tileMap p (hiTileIdx p.length i) (hiTileIdx (p.headD []).length j) (getD2 p i j 0)

/-- The enhanced luminance plane. -/
def claheApply (p : List (List ℕ)) : List (List ℕ) :=
  (List.range p.length).map (fun i =>
    (List.range (p.headD []).length).map (fun j => toU8floor (claheAt p i j)))

/-- A constant plane. -/
def constPlane (hN wN c : ℕ) : List (List ℕ) :=
  List.replicate hN (List.replicate wN c)

/-- The constant output value of the enhancer on a constant-`c` plane: after
clipping and uniform redistribution the mapping sends `c` to
`255 * (511 * c + 767) / 131072`, independent of the tile size. -/
def claheConstValue (c : ℕ) : ℕ :=
  toU8floor (255 * (511 * ((c : ℕ) : ℚ) + 767) / 131072)

lemma lowTileIdx_le7 (n i : ℕ) : lowTileIdx n i ≤ 7 := by
  unfold lowTileIdx
  split
  · omega
  · exact Nat.min_le_right _ _

lemma hiTileIdx_le7 (n i : ℕ) : hiTileIdx n i ≤ 7 := Nat.min_le_right _ _

lemma tileIdxs_nonempty (n t : ℕ) (hn : 8 ≤ n) (ht : t ≤ 7) :
    0 < (tileIdxs n t).length := by
  have hq : (t * n + 7) / 8 ∈ tileIdxs n t := by
    have hdm := Nat.div_add_mod (t * n + 7) 8
    have hm : (t * n + 7) % 8 < 8 := Nat.mod_lt _ (by norm_num)
    set q := (t * n + 7) / 8 with hqdef
    have hexp : (t + 1) * n = t * n + n := by ring
    have htn : t * n ≤ 7 * n := Nat.mul_le_mul_right n ht
    have hq_lt_n : q < n := by omega
    have h8q_ge : t * n ≤ 8 * q := by omega
    have h8q_lt : 8 * q < (t + 1) * n := by omega
    have h1 : t ≤ 8 * q / n := (Nat.le_div_iff_mul_le (by omega)).mpr (by omega)
    have h2 : 8 * q / n < t + 1 :=
      (Nat.div_lt_iff_lt_mul (by omega)).mpr (by omega)
    have hdiv : 8 * q / n = t := by omega
    unfold tileIdxs
    rw [List.mem_filter]
    refine ⟨List.mem_range.mpr hq_lt_n, ?_⟩
    simp only [tileOf, hdiv, decide_eq_true_eq]
    omega
  exact List.length_pos.mpr (List.ne_nil_of_mem hq)

lemma getD_replicate_lt (n m : ℕ) (a d : α) (h : m < n) :
    (List.replicate n a).getD m d = a := by
  induction n generalizing m with
  | zero => omega
  | succ k ih =>
    cases m with
    | zero => rfl
    | succ m0 =>
      simp only [List.replicate_succ, List.getD_cons_succ]
      exact ih m0 (by omega)

lemma headD_replicate (n : ℕ) (a : List α) (h : 0 < n) :
    (List.replicate n a).headD [] = a := by
  cases n with
  | zero => omega
  | succ k => rfl

lemma map_const_mem (l : List α) (c : γ) (f : α → γ) (hf : ∀ a ∈ l, f a = c) :
    l.map f = List.replicate l.length c := by
  induction l with
  | nil => rfl
  | cons a as ih =>
    simp only [List.map_cons, List.length_cons, List.replicate_succ]
    rw [hf a (by simp), ih (fun x hx => hf x (List.mem_cons_of_mem a hx))]

lemma bind_const_replicate (l : List α) (k : ℕ) (c : γ) (f : α → List γ)
    (hf : ∀ a ∈ l, f a = List.replicate k c) :
    l.flatMap f = List.replicate (l.length * k) c := by
  induction l with
  | nil => simp
  | cons a as ih =>
    rw [List.flatMap_cons, hf a (by simp),
      ih (fun x hx => hf x (List.mem_cons_of_mem a hx)), ← List.replicate_add]
    congr 1
    simp [List.length_cons]
    ring

lemma sum_range_ite (n c : ℕ) (x : ℚ) :
    ((List.range n).map (fun b => if b = c then x else 0)).sum =
      if c < n then x else 0 := by
  induction n with
  | zero => simp
  | succ k ih =>
    simp only [List.range_succ, List.map_append, List.sum_append, ih,
      List.map_cons, List.map_nil, List.sum_cons, List.sum_nil, add_zero]
    rcases lt_trichotomy c k with h | h | h
    · rw [if_pos h, if_neg (by omega), if_pos (by omega), add_zero]
    · subst h
      rw [if_neg (by omega), if_pos rfl, if_pos (by omega), zero_add]
    · rw [if_neg (by omega), if_neg (by omega), if_neg (by omega), add_zero]

lemma sum_range_const (n : ℕ) (x : ℚ) :
    ((List.range n).map (fun _ => x)).sum = (n : ℚ) * x := by
  induction n with
  | zero => simp
  | succ k ih =>
    simp only [List.range_succ, List.map_append, List.sum_append, ih,
      List.map_cons, List.map_nil, List.sum_cons, List.sum_nil, add_zero]
    push_cast
    ring

lemma sum_map_add_split (l : List ℕ) (f g : ℕ → ℚ) :
    (l.map (fun b => f b + g b)).sum = (l.map f).sum + (l.map g).sum := by
  induction l with
  | nil => simp
  | cons a as ih =>
    simp only [List.map_cons, List.sum_cons, ih]
    ring

lemma tileVals_const (hN wN c ty tx : ℕ) (hH : 0 < hN) :
    tileVals (constPlane hN wN c) ty tx =
      List.replicate ((tileIdxs hN ty).length * (tileIdxs wN tx).length) c := by
  have hplen : (constPlane hN wN c).length = hN := by simp [constPlane]
  have hphead : (constPlane hN wN c).headD [] = List.replicate wN c :=
    headD_replicate hN _ hH
  unfold tileVals
  rw [hplen, hphead, List.length_replicate]
  apply bind_const_replicate
  intro i hi
  have hi' : i < hN := List.mem_range.mp (List.mem_filter.mp hi).1
  apply map_const_mem
  intro j hj
  have hj' : j < wN := List.mem_range.mp (List.mem_filter.mp hj).1
  unfold getD2 constPlane
  rw [getD_replicate_lt hN _ _ _ hi', getD_replicate_lt wN _ _ _ hj']

lemma tileCount_const (hN wN c ty tx : ℕ) (hH : 0 < hN) :
    tileCount (constPlane hN wN c) ty tx =
      (tileIdxs hN ty).length * (tileIdxs wN tx).length := by
  rw [tileCount, tileVals_const hN wN c ty tx hH]
  exact List.length_replicate _ _

lemma tileHist_const (hN wN c ty tx b : ℕ) (hH : 0 < hN) :
    tileHist (constPlane hN wN c) ty tx b =
      if b = c then (tileIdxs hN ty).length * (tileIdxs wN tx).length else 0 := by
  rw [tileHist, tileVals_const hN wN c ty tx hH, List.count_replicate]
  simp only [beq_iff_eq]
  by_cases hb : b = c
  · rw [if_pos hb.symm, if_pos hb]
  · rw [if_neg (fun hcb => hb hcb.symm), if_neg hb]

lemma tileMap_const (hN wN c ty tx : ℕ) (hH : 8 ≤ hN) (hW : 8 ≤ wN)
    (hc : c ≤ 255) (hty : ty ≤ 7) (htx : tx ≤ 7) :
    tileMap (constPlane hN wN c) ty tx c =
      255 * (511 * ((c : ℕ) : ℚ) + 767) / 131072 := by
  set N := (tileIdxs hN ty).length * (tileIdxs wN tx).length with hNdef
  have hH0 : 0 < hN := by omega
  have hNpos : 0 < N :=
    Nat.mul_pos (tileIdxs_nonempty hN ty hH hty) (tileIdxs_nonempty wN tx hW htx)
  have hNQ : ((N : ℕ) : ℚ) ≠ 0 := by exact_mod_cast hNpos.ne'
  have hcount : tileCount (constPlane hN wN c) ty tx = N :=
    tileCount_const hN wN c ty tx hH0
  have hhist : ∀ b, tileHist (constPlane hN wN c) ty tx b =
      if b = c then N else 0 := fun b => tileHist_const hN wN c ty tx b hH0
  have hlim : clipLimQ N = (N : ℚ) / 512 := by unfold clipLimQ; ring
  have hclip : ∀ b, clippedBin (constPlane hN wN c) ty tx b =
      if b = c then ((N : ℕ) : ℚ) / 512 else 0 := by
    intro b
    unfold clippedBin
    rw [hcount, hhist b, hlim]
    by_cases hb : b = c
    · rw [if_pos hb, if_pos hb]
      apply min_eq_right
      have h0 : (0 : ℚ) ≤ ((N : ℕ) : ℚ) := by positivity
      linarith
    · rw [if_neg hb, if_neg hb]
      simp only [Nat.cast_zero]
      apply min_eq_left
      positivity
  have hexcess : excessQ (constPlane hN wN c) ty tx =
      ((N : ℕ) : ℚ) - ((N : ℕ) : ℚ) / 512 := by
    unfold excessQ
    have hterm : ∀ b ∈ List.range 256,
        ((tileHist (constPlane hN wN c) ty tx b : ℕ) : ℚ) -
          clippedBin (constPlane hN wN c) ty tx b =
        if b = c then ((N : ℕ) : ℚ) - ((N : ℕ) : ℚ) / 512 else 0 := by
      intro b hb
      rw [hhist b, hclip b]
      by_cases hbc : b = c
      · rw [if_pos hbc, if_pos hbc, if_pos hbc]
      · rw [if_neg hbc, if_neg hbc, if_neg hbc]
        norm_num
    rw [List.map_congr_left hterm, sum_range_ite 256 c _, if_pos (by omega)]
  have hcdf : tileCdf (constPlane hN wN c) ty tx c =
      ((N : ℕ) : ℚ) / 512 +
        (((c : ℕ) : ℚ) + 1) * ((((N : ℕ) : ℚ) - ((N : ℕ) : ℚ) / 512) / 256) := by
    unfold tileCdf
    have hfun : ∀ b ∈ List.range (c + 1),
        redistBin (constPlane hN wN c) ty tx b =
        (if b = c then ((N : ℕ) : ℚ) / 512 else 0) +
          ((((N : ℕ) : ℚ) - ((N : ℕ) : ℚ) / 512) / 256) := by
      intro b hb
      unfold redistBin
      rw [hclip b, hexcess]
    rw [List.map_congr_left hfun, sum_map_add_split, sum_range_ite,
      sum_range_const, if_pos (by omega)]
    push_cast
    ring
  unfold tileMap
  rw [hcdf, hcount]
  field_simp
  ring

lemma clahe_const_output (hN wN c : ℕ) (hH : 8 ≤ hN) (hW : 8 ≤ wN)
    (hc : c ≤ 255) :
    claheApply (constPlane hN wN c) = constPlane hN wN (claheConstValue c) := by
  have hplen : (constPlane hN wN c).length = hN := by simp [constPlane]
  have hphead : (constPlane hN wN c).headD [] = List.replicate wN c :=
    headD_replicate hN _ (by omega)
  have hpheadlen : ((constPlane hN wN c).headD []).length = wN := by
    rw [hphead]; simp
  have hAt : ∀ i < hN, ∀ j < wN, claheAt (constPlane hN wN c) i j =
      255 * (511 * ((c : ℕ) : ℚ) + 767) / 131072 := by
    intro i hi j hj
    have hv : getD2 (constPlane hN wN c) i j 0 = c := by
      unfold getD2 constPlane
      rw [getD_replicate_lt _ _ _ _ hi, getD_replicate_lt _ _ _ _ hj]
    unfold claheAt
    rw [hplen, hpheadlen, hv]
    rw [tileMap_const hN wN c _ _ hH hW hc (lowTileIdx_le7 hN i) (lowTileIdx_le7 wN j),
      tileMap_const hN wN c _ _ hH hW hc (lowTileIdx_le7 hN i) (hiTileIdx_le7 wN j),
      tileMap_const hN wN c _ _ hH hW hc (hiTileIdx_le7 hN i) (lowTileIdx_le7 wN j),
      tileMap_const hN wN c _ _ hH hW hc (hiTileIdx_le7 hN i) (hiTileIdx_le7 wN j)]
    ring
  unfold claheApply
  rw [hplen, hpheadlen]
  have router : ∀ i ∈ List.range hN,
      (List.range wN).map (fun j => toU8floor (claheAt (constPlane hN wN c) i j)) =
        List.replicate wN (claheConstValue c) := by
    intro i hi
    have hi' := List.mem_range.mp hi
    have hinner : ∀ j ∈ List.range wN,
        toU8floor (claheAt (constPlane hN wN c) i j) = claheConstValue c := by
      intro j hj
      rw [hAt i hi' j (List.mem_range.mp hj)]
      rfl
    rw [map_const_mem _ _ _ hinner, List.length_range]
  rw [map_const_mem _ _ _ router, List.length_range]
  rfl

/-- C4 (amended): for every constant luminance plane of extent at least 8x8,
the Adaptive Contrast Enhancer returns a plane that is again constant — but
its value is the clipped-and-redistributed equalization mapping of `c`,
`toU8floor (255 * (511*c + 767) / 131072)`, which in general differs from `c`
(clipping at limit `0.5` redistributes almost the whole single-bin histogram
uniformly, so the mapping is close to, but not equal to, the identity). -/
theorem clahe_constant_plane_c4 (hN wN c : ℕ) (hH : 8 ≤ hN) (hW : 8 ≤ wN)
    (hc : c ≤ 255) :
    claheApply (constPlane hN wN c) = constPlane hN wN (claheConstValue c) :=
  clahe_const_output hN wN c hH hW hc

/-- C4 counterexample: on the constant-0 8x8 luminance plane the enhancer
returns the constant-1 plane, not the constant-0 plane, refuting the claim
that a constant plane is returned with the same constant value. -/
theorem clahe_not_identity_on_const_c4 :
    claheApply (constPlane 8 8 0) ≠ constPlane 8 8 0 := by
  rw [clahe_const_output 8 8 0 (by norm_num) (by norm_num) (by norm_num)]
  have h1 : claheConstValue 0 = 1 := by
    unfold claheConstValue toU8floor
    have he : (255 * (511 * ((0 : ℕ) : ℚ) + 767) / 131072) = 195585 / 131072 := by
      norm_num
    rw [he]
    have hf : ⌊(195585 / 131072 : ℚ)⌋ = 1 := by norm_num [Int.floor_eq_iff]
    rw [hf]
    rfl
  rw [h1]
  decide

/-- Witness for C4 at the concrete constant plane `constPlane 8 8 5`. -/
theorem clahe_constant_plane_c4_witness :
    (8 : ℕ) ≤ 8 ∧ (5 : ℕ) ≤ 255 ∧
    claheApply (constPlane 8 8 5) = constPlane 8 8 (claheConstValue 5) :=
  ⟨by norm_num, by norm_num,
    clahe_constant_plane_c4 8 8 5 (by norm_num) (by norm_num) (by norm_num)⟩

/-! ### The full enhancement pipeline (`preprocess_underwater_image`)

The color-space conversions of source lines 55 and 74 are the external
`cv2.cvtColor` collaborator; they are per-pixel transforms, so the pipeline
is parameterized by the two per-pixel conversion functions `toLab` and
`fromLab`. -/

/-- The whole pipeline: red-channel compensation, conversion to the
perceptual representation, chromatic cast correction, CLAHE on the luminance
plane, recombination, conversion back to device color. -/
def preprocess_underwater_image (toLab fromLab : ℕ × ℕ × ℕ → ℕ × ℕ × ℕ)
    (image : List (List (ℕ × ℕ × ℕ))) : List (List (ℕ × ℕ × ℕ)) :=
  map2D fromLab
    (merge3 (claheApply (lPlaneOf (castCorrect (map2D toLab (image_compensated image)))))
      (aPlaneOf (castCorrect (map2D toLab (image_compensated image))))
      (bPlaneOf (castCorrect (map2D toLab (image_compensated image)))))

lemma rect_castCorrect (img : List (List (ℕ × ℕ × ℕ))) (h w : ℕ)
    (him : Rect img h w) : Rect (castCorrect img) h w :=
  rect_map2D _ _ _ _ him

lemma rect_claheApply (p : List (List ℕ)) (h w : ℕ) (hp : Rect p h w)
    (hh : 0 < h) : Rect (claheApply p) h w := by
  have hlen : p.length = h := hp.1
  have hhead : (p.headD []).length = w := by
    cases p with
    | nil => simp at hlen; omega
    | cons r rs => exact hp.2 r (by simp)
  constructor
  · simp [claheApply, hlen]
  · intro row hr
    unfold claheApply at hr
    rcases List.mem_map.1 hr with ⟨i, _, rfl⟩
    simpa using hhead

/-- C7: for every raster of nonzero height and width (the channel count 3 is
structural: pixels are triples), every stage of the pipeline — the
compensated raster, the perceptual raster, the cast-corrected raster, the
enhanced luminance plane, and the final output of
`preprocess_underwater_image` — has exactly the height and width of the
input, for any per-pixel color-space conversion collaborators. -/
theorem pipeline_preserves_dimensions_c7
    (toLab fromLab : ℕ × ℕ × ℕ → ℕ × ℕ × ℕ) (img : List (List (ℕ × ℕ × ℕ)))
    (h w : ℕ) (hh : 0 < h) (_hw : 0 < w) (him : Rect img h w) :
    Rect (image_compensated img) h w ∧
    Rect (map2D toLab (image_compensated img)) h w ∧
    Rect (castCorrect (map2D toLab (image_compensated img))) h w ∧
    Rect (claheApply (lPlaneOf (castCorrect (map2D toLab (image_compensated img))))) h w ∧
    Rect (preprocess_underwater_image toLab fromLab img) h w := by
  have h1 : Rect (image_compensated img) h w := rect_image_compensated img h w him
  have h2 : Rect (map2D toLab (image_compensated img)) h w := rect_map2D _ _ _ _ h1
  have h3 : Rect (castCorrect (map2D toLab (image_compensated img))) h w :=
    rect_castCorrect _ h w h2
  have h4 : Rect (claheApply (lPlaneOf (castCorrect (map2D toLab (image_compensated img))))) h w :=
    rect_claheApply _ h w (rect_map2D _ _ _ _ h3) hh
  refine ⟨h1, h2, h3, h4, ?_⟩
  exact rect_map2D _ _ _ _ (rect_merge3 _ _ _ h w h4
    (rect_map2D _ _ _ _ h3) (rect_map2D _ _ _ _ h3))

/-- Witness for C7 at a concrete 1x1 raster with identity conversions. -/
theorem pipeline_preserves_dimensions_c7_witness :
    (0 : ℕ) < 1 ∧ Rect [[((1 : ℕ), (2 : ℕ), (3 : ℕ))]] 1 1 ∧
    Rect (preprocess_underwater_image id id [[(1, 2, 3)]]) 1 1 :=
  ⟨by decide,
    ⟨rfl, by intro row hr; simp at hr; simp [hr]⟩,
    (pipeline_preserves_dimensions_c7 id id [[(1, 2, 3)]] 1 1 (by decide)
      (by decide) ⟨rfl, by intro row hr; simp at hr; simp [hr]⟩).2.2.2.2⟩

/-! ### The processing entry point (`main.py`, `process_image`)

Source lines 36-48: `original = cv2.imread(image_path)`; if the decode
collaborator yields no raster (`original is None`) the function prints
`"Error: Could not load image from ..."` and executes a plain `return` —
it raises nothing, so the caller receives the normal `None` return value,
indistinguishable from a successful run; the core pipeline and the
statistics are not invoked.  Otherwise the core runs on the decoded raster.
The decode result is passed in as an `Option` raster, and the per-pixel
color-space collaborators as functions. -/

/-- The caller-visible outcome of `process_image`: either a normal return
(`done`, carrying the enhanced raster if the core ran, `none` if the
function returned early), or a raised error (`raised`) surfaced to the
caller — which the source never produces. -/
inductive ProcOutcome where
  | done (enhanced : Option (List (List (ℕ × ℕ × ℕ))))
  | raised (msg : String)

/-- Whether an outcome is an error surfaced to the caller. -/
def ProcOutcome.isRaised : ProcOutcome → Bool
  | ProcOutcome.raised _ => true
  | ProcOutcome.done _ => false

/-- `process_image`, translated from `main.py` lines 36-48: on decode
failure it prints an error and returns normally without running the core;
otherwise it runs the core pipeline on the decoded raster and returns
normally. -/
def process_image (toLab fromLab : ℕ × ℕ × ℕ → ℕ × ℕ × ℕ)
    (decoded : Option (List (List (ℕ × ℕ × ℕ)))) : ProcOutcome :=
  match decoded with
  | none => ProcOutcome.done none
  | some original =>
      ProcOutcome.done (some (preprocess_underwater_image toLab fromLab original))

/-- C9 counterexample: on an undecodable input (decode yields no raster)
`process_image` does not surface any error to the caller — it returns
normally (printing a message), so the claim that it "fails with an
InvalidImage error surfaced to the caller" is false. -/
theorem process_image_no_error_surfaced_c9 :
    (process_image id id none).isRaised = false := rfl

/-- C9 (amended): on every undecodable input the entry point returns early —
normally, with no enhanced raster, never a raised error — and the core
pipeline is not invoked on it; but no `InvalidImage` (or any other) error is
surfaced to the caller. -/
theorem process_image_decode_failure_early_return_c9
    (toLab fromLab : ℕ × ℕ × ℕ → ℕ × ℕ × ℕ) :
    process_image toLab fromLab none = ProcOutcome.done none := rfl
